import Mathlib

/-!
Verification of the ndarray-tensorflow adapter (src/lib.rs).

The crate wraps a Tensorflow Tensor so that it can be used through the
ndarray view API.  We embed the relevant parts shallowly:

* a Tensor is its shape metadata (dims, a list of extents) together with a
  flat row-major data buffer;
* a dimension type D of the ndarray crate is represented by shape values,
  which are lists of extents; the statically ranked type Ixn is embedded by
  its default value (n extents, all zero), the dynamically ranked type
  IxDyn by its default value (the empty list, rank zero);
* ArrayView and ArrayViewMut are a shape together with the borrowed
  contiguous buffer, indexed in standard row-major order; mutation through
  a mutable view is embedded as explicit state passing on the wrapper.
-/

deriving instance DecidableEq for Except

namespace NdarrayTensorflow

/-- A Tensorflow tensor: shape metadata (dims) and a flat row-major buffer. -/
structure Tensor (T : Type) where
  dims : List Nat
  data : List T
deriving DecidableEq

/-- Tensorflow's Tensor::new: a zero-filled buffer whose length is the
product of the given dims. -/
def Tensor.new (T : Type) [Zero T] (dims : List Nat) : Tensor T :=
  { dims := dims, data := List.replicate dims.prod (0 : T) }

/-- Tensorflow's Tensor::with_values: replace the buffer contents, failing
when the value count differs from the product of the dims. -/
def Tensor.with_values {T : Type} (t : Tensor T) (values : List T) : Option (Tensor T) :=
  if values.length = t.dims.prod then some { t with data := values } else none

/-- A tensor is well formed when its buffer length equals the product of its
dims; Tensor::new and with_values only ever produce such tensors. -/
def Tensor.WellFormed {T : Type} (t : Tensor T) : Prop :=
  t.data.length = t.dims.prod

instance {T : Type} (t : Tensor T) : Decidable t.WellFormed := by
  unfold Tensor.WellFormed; infer_instance

/-- Mismatch between the tensor shape dimensionality and the shape type
(called ShapeMismatch in the design document). -/
structure ShapeError : Type where
deriving DecidableEq

/-- A wrapper for Tensor that provides views (NdTensor in src/lib.rs). -/
structure NdTensor (T : Type) where
  inner : Tensor T
  shape : List Nat
deriving DecidableEq

/-- Default value of the statically ranked dimension type Ixn: n extents,
all zero, so its ndim is n. -/
def fixedDefault (n : Nat) : List Nat := List.replicate n 0

/-- Default value of the dynamically ranked dimension type IxDyn: the empty
shape, so its ndim is 0. -/
def dynDefault : List Nat := []

/-- NdTensor::from_tensor.  The target dimension type D enters only through
its default value dflt (the code builds D::default(), compares its ndim with
the tensor rank, then overwrites each extent positionally from the tensor's
dims). -/
def NdTensor.from_tensor {T : Type} (dflt : List Nat) (tensor : Tensor T) :
    Except ShapeError (NdTensor T) :=
  let shape := dflt
  if shape.length ≠ tensor.dims.length then
    Except.error ShapeError.mk
  else
    let shape := (List.range shape.length).foldl
      (fun s idx => s.set idx (tensor.dims.getD idx 0)) shape
    Except.ok { inner := tensor, shape := shape }

/-- NdTensor::zeros: allocate a zero-initialized tensor for the given shape
and store that shape. -/
def NdTensor.zeros (T : Type) [Zero T] (shape : List Nat) : NdTensor T :=
  { inner := Tensor.new T shape, shape := shape }

/-- NdTensor::inner_ref: borrow the wrapped tensor. -/
def NdTensor.inner_ref {T : Type} (a : NdTensor T) : Tensor T := a.inner

/-- NdTensor::into_inner: consume the wrapper and reclaim the tensor. -/
def NdTensor.into_inner {T : Type} (a : NdTensor T) : Tensor T := a.inner

/-- An ndarray view in standard row-major layout: the shape together with
the borrowed contiguous buffer. -/
structure ArrayView (T : Type) where
  shape : List Nat
  data : List T
deriving DecidableEq

/-- ndarray's ArrayView::from_shape on a contiguous slice: succeeds exactly
when the slice length equals the product of the shape's extents. -/
def ArrayView.from_shape {T : Type} (shape : List Nat) (data : List T) :
    Option (ArrayView T) :=
  if data.length = shape.prod then some { shape := shape, data := data } else none

/-- NdTensor::view: the unwrap of ArrayView::from_shape is modelled by
keeping the Option; the safety claim is that it is always some. -/
def NdTensor.view {T : Type} (a : NdTensor T) : Option (ArrayView T) :=
  ArrayView.from_shape a.shape a.inner.data

/-- NdTensor::view_mut builds the mutable view from the same shape and
buffer, with the same length check. -/
def NdTensor.view_mut {T : Type} (a : NdTensor T) : Option (ArrayView T) :=
  ArrayView.from_shape a.shape a.inner.data

/-- Row-major flat offset of a multi-dimensional index: the stride of an
axis is the product of the extents that follow it. -/
def flatIndex : List Nat → List Nat → Nat
  | _ :: ds, i :: is => i * ds.prod + flatIndex ds is
  | _, _ => 0

/-- Element read on a view (ndarray's Index impl) at a multi-dimensional
index, through the row-major offset. -/
def ArrayView.read {T : Type} [Inhabited T] (v : ArrayView T) (index : List Nat) : T :=
  v.data.getD (flatIndex v.shape index) default

/-- Assignment of one element through a mutable view (ndarray's IndexMut
impl): the buffer cell at the row-major offset is overwritten; the wrapper
state afterwards. -/
def NdTensor.write {T : Type} (a : NdTensor T) (index : List Nat) (x : T) : NdTensor T :=
  { a with inner := { a.inner with data := a.inner.data.set (flatIndex a.shape index) x } }

/-- A multi-dimensional index is in bounds for a shape: same rank, and each
coordinate below the corresponding extent. -/
def validIdx (shape index : List Nat) : Prop :=
  index.length = shape.length ∧ ∀ p ∈ index.zip shape, p.1 < p.2

instance (shape index : List Nat) : Decidable (validIdx shape index) := by
  unfold validIdx; infer_instance

/-- The data-model invariant: the buffer length equals the product of the
stored shape's extents. -/
def NdTensor.Inv {T : Type} (a : NdTensor T) : Prop :=
  a.inner.data.length = a.shape.prod

instance {T : Type} (a : NdTensor T) : Decidable a.Inv := by
  unfold NdTensor.Inv; infer_instance

/-! Helper lemmas about the extent-copying loop of from_tensor. -/

lemma foldl_set_range_eq (dims : List Nat) :
    ∀ (n : Nat) (s : List Nat), n ≤ s.length → n ≤ dims.length →
      (List.range n).foldl (fun acc idx => acc.set idx (dims.getD idx 0)) s
        = dims.take n ++ s.drop n := by
  intro n
  induction n with
  | zero => intro s _ _; simp
  | succ n ih =>
    intro s hs hd
    have hn_s : n < s.length := by omega
    have hn_d : n < dims.length := by omega
    rw [List.range_succ, List.foldl_append, ih s (by omega) (by omega),
      List.foldl_cons, List.foldl_nil]
    have hlen : (dims.take n).length = n := by
      rw [List.length_take]; omega
    rw [List.set_append_right n (dims.getD n 0) (le_of_eq hlen), hlen, Nat.sub_self,
      List.drop_eq_getElem_cons hn_s, List.set_cons_zero]
    have htake : dims.take (n + 1) = dims.take n ++ [dims[n]] := by
      rw [List.take_succ, List.getElem?_eq_getElem hn_d]
      rfl
    rw [htake, List.append_assoc, List.singleton_append,
      List.getD_eq_getElem dims 0 hn_d]

lemma from_tensor_eq_error_iff {T : Type} (dflt : List Nat) (t : Tensor T) :
    NdTensor.from_tensor dflt t = Except.error ShapeError.mk
      ↔ dflt.length ≠ t.dims.length := by
  by_cases h : dflt.length = t.dims.length <;>
    simp [NdTensor.from_tensor, h]

lemma from_tensor_ok_of_length {T : Type} (dflt : List Nat) (t : Tensor T)
    (h : dflt.length = t.dims.length) :
    NdTensor.from_tensor dflt t = Except.ok { inner := t, shape := t.dims } := by
  have hdrop : List.drop t.dims.length dflt = [] := by
    rw [← h]
    simp
  simp only [NdTensor.from_tensor, h, ne_eq, not_true_eq_false, if_false,
    foldl_set_range_eq t.dims t.dims.length dflt (le_of_eq h.symm) le_rfl,
    List.take_length, hdrop, List.append_nil]

lemma from_tensor_ok_elim {T : Type} (dflt : List Nat) (t : Tensor T) (a : NdTensor T)
    (h : NdTensor.from_tensor dflt t = Except.ok a) :
    dflt.length = t.dims.length ∧ a = { inner := t, shape := t.dims } := by
  by_cases hlen : dflt.length = t.dims.length
  · rw [from_tensor_ok_of_length dflt t hlen] at h
    injection h with h2
    exact ⟨hlen, h2.symm⟩
  · rw [(from_tensor_eq_error_iff dflt t).mpr hlen] at h
    exact absurd h (by simp)

lemma view_some {T : Type} (a : NdTensor T) (h : a.inner.data.length = a.shape.prod) :
    a.view = some { shape := a.shape, data := a.inner.data } := by
  simp [NdTensor.view, ArrayView.from_shape, h]

lemma view_mut_some {T : Type} (a : NdTensor T) (h : a.inner.data.length = a.shape.prod) :
    a.view_mut = some { shape := a.shape, data := a.inner.data } := by
  simp [NdTensor.view_mut, ArrayView.from_shape, h]

/-! Helper lemmas about row-major offsets. -/

lemma flatIndex_lt_prod : ∀ (shape index : List Nat),
    index.length = shape.length → (∀ p ∈ index.zip shape, p.1 < p.2) →
    flatIndex shape index < shape.prod := by
  intro shape
  induction shape with
  | nil =>
    intro index hlen _
    have hnil : index = [] := List.eq_nil_of_length_eq_zero (by simpa using hlen)
    subst hnil
    simp [flatIndex]
  | cons d ds ih =>
    intro index hlen hbound
    cases index with
    | nil => simp at hlen
    | cons i is =>
      have hid : i < d := hbound (i, d) (by simp [List.zip_cons_cons])
      have htail : ∀ p ∈ is.zip ds, p.1 < p.2 := fun p hp =>
        hbound p (by simp [List.zip_cons_cons, hp])
      have hr := ih is (by simpa using hlen) htail
      calc flatIndex (d :: ds) (i :: is) = i * ds.prod + flatIndex ds is := rfl
        _ < i * ds.prod + ds.prod := by omega
        _ = (i + 1) * ds.prod := by ring
        _ ≤ d * ds.prod := Nat.mul_le_mul_right ds.prod hid
        _ = (d :: ds).prod := (List.prod_cons).symm

lemma mul_add_cancel_of_lt {P i j r s : Nat} (hr : r < P) (hs : s < P)
    (h : i * P + r = j * P + s) : i = j ∧ r = s := by
  have hP : 0 < P := by omega
  have h1 : (i * P + r) / P = i := by
    rw [Nat.mul_comm, Nat.mul_add_div hP, Nat.div_eq_of_lt hr]
    omega
  have h2 : (j * P + s) / P = j := by
    rw [Nat.mul_comm, Nat.mul_add_div hP, Nat.div_eq_of_lt hs]
    omega
  have hij : i = j := by rw [← h1, h, h2]
  subst hij
  exact ⟨rfl, Nat.add_left_cancel h⟩

lemma flatIndex_inj : ∀ (shape ix jx : List Nat),
    ix.length = shape.length → (∀ p ∈ ix.zip shape, p.1 < p.2) →
    jx.length = shape.length → (∀ p ∈ jx.zip shape, p.1 < p.2) →
    flatIndex shape ix = flatIndex shape jx → ix = jx := by
  intro shape
  induction shape with
  | nil =>
    intro ix jx hi _ hj _ _
    have hnix : ix = [] := List.eq_nil_of_length_eq_zero (by simpa using hi)
    have hnjx : jx = [] := List.eq_nil_of_length_eq_zero (by simpa using hj)
    rw [hnix, hnjx]
  | cons d ds ih =>
    intro ix jx hi hbi hj hbj heq
    cases ix with
    | nil => simp at hi
    | cons a as =>
      cases jx with
      | nil => simp at hj
      | cons b bs =>
        have hbi' : ∀ p ∈ as.zip ds, p.1 < p.2 := fun p hp =>
          hbi p (by simp [List.zip_cons_cons, hp])
        have hbj' : ∀ p ∈ bs.zip ds, p.1 < p.2 := fun p hp =>
          hbj p (by simp [List.zip_cons_cons, hp])
        have hia : as.length = ds.length := by simpa using hi
        have hjb : bs.length = ds.length := by simpa using hj
        have hra := flatIndex_lt_prod ds as hia hbi'
        have hrb := flatIndex_lt_prod ds bs hjb hbj'
        have heq' : a * ds.prod + flatIndex ds as = b * ds.prod + flatIndex ds bs := heq
        obtain ⟨h1, h2⟩ := mul_add_cancel_of_lt hra hrb heq'
        rw [h1, ih as bs hia hbi' hjb hbj' h2]

/-! Claim theorems. -/

/-- C1: from_tensor returns the ShapeMismatch error exactly when the rank of
the tensor's dims differs from the declared arity n of the fixed-rank target
shape type; in particular a tensor of shape [2, 3] into a rank-1 target
fails with ShapeMismatch. -/
theorem from_tensor_shape_mismatch_iff :
    (∀ (T : Type) (n : Nat) (t : Tensor T),
      NdTensor.from_tensor (fixedDefault n) t = Except.error ShapeError.mk
        ↔ t.dims.length ≠ n)
    ∧ NdTensor.from_tensor (T := Nat) (fixedDefault 1)
        { dims := [2, 3], data := [0, 1, 2, 3, 4, 5] } = Except.error ShapeError.mk := by
  constructor
  · intro T n t
    rw [from_tensor_eq_error_iff]
    simp only [fixedDefault, List.length_replicate]
    exact ne_comm
  · decide

/-- C2: when the tensor's rank equals the target arity, from_tensor succeeds
and stores exactly the tensor's dims, positionally and in order (zero
extents included), and any view taken afterwards carries those same
extents. -/
theorem from_tensor_preserves_extents (T : Type) (n : Nat) (t : Tensor T)
    (h : t.dims.length = n) :
    ∃ a : NdTensor T, NdTensor.from_tensor (fixedDefault n) t = Except.ok a
      ∧ a.shape = t.dims
      ∧ ∀ v ∈ a.view, v.shape = t.dims := by
  refine ⟨{ inner := t, shape := t.dims }, ?_, rfl, ?_⟩
  · exact from_tensor_ok_of_length _ _ (by simp [fixedDefault, h])
  · intro v hv
    by_cases hc : t.data.length = t.dims.prod
    · simp only [NdTensor.view, ArrayView.from_shape, hc, if_true, Option.mem_def,
        Option.some.injEq] at hv
      rw [← hv]
    · simp [NdTensor.view, ArrayView.from_shape, hc] at hv

/-- Witness for C2: a rank-2 tensor with a zero extent is accepted and its
extents, the zero included, propagate unchanged. -/
theorem from_tensor_preserves_extents_witness :
    ∃ a : NdTensor Nat,
      NdTensor.from_tensor (fixedDefault 2) { dims := [2, 0], data := [] } = Except.ok a
      ∧ a.shape = [2, 0]
      ∧ ∀ v ∈ a.view, v.shape = [2, 0] :=
  from_tensor_preserves_extents Nat 2 { dims := [2, 0], data := [] } (by decide)

/-- C3: the buffer-length invariant. from_tensor on a well-formed tensor and
zeros both establish that the buffer length equals the product of the stored
shape's extents; element writes through a mutable view preserve it; and
reclaiming via into_inner returns a buffer of exactly that length. -/
theorem buffer_length_invariant :
    (∀ (T : Type) (n : Nat) (t : Tensor T) (a : NdTensor T),
      t.WellFormed → NdTensor.from_tensor (fixedDefault n) t = Except.ok a → a.Inv)
    ∧ (∀ (T : Type) [Zero T] (shape : List Nat), (NdTensor.zeros T shape).Inv)
    ∧ (∀ (T : Type) (a : NdTensor T) (ix : List Nat) (x : T),
      a.Inv → (a.write ix x).Inv)
    ∧ (∀ (T : Type) (a : NdTensor T),
      a.Inv → a.into_inner.data.length = a.shape.prod) := by
  refine ⟨?_, ?_, ?_, ?_⟩
  · intro T n t a hwf hok
    obtain ⟨-, ha⟩ := from_tensor_ok_elim _ t a hok
    subst ha
    simpa [NdTensor.Inv, Tensor.WellFormed] using hwf
  · intro T _ shape
    simp [NdTensor.zeros, Tensor.new, NdTensor.Inv]
  · intro T a ix x h
    simpa [NdTensor.write, NdTensor.Inv] using h
  · intro T a h
    exact h

/-- Witness for C3 at the concrete shape [2, 3] tensor with values 0..5. -/
theorem buffer_length_invariant_witness :
    (NdTensor.mk { dims := [2, 3], data := [0, 1, 2, 3, 4, 5] } [2, 3] : NdTensor Nat).Inv :=
  buffer_length_invariant.1 Nat 2 { dims := [2, 3], data := [0, 1, 2, 3, 4, 5] } _
    (by decide) (by decide)

/-- C4: under the invariant, view and view_mut never fail: the inner
ArrayView shape check always passes, so the accessors return some, never
none. -/
theorem view_never_fails (T : Type) (a : NdTensor T) (h : a.Inv) :
    a.view = some { shape := a.shape, data := a.inner.data }
    ∧ a.view_mut = some { shape := a.shape, data := a.inner.data } := by
  have h' : a.inner.data.length = a.shape.prod := h
  exact ⟨view_some a h', view_mut_some a h'⟩

/-- Witness for C4 at the concrete shape [2, 3] tensor with values 0..5. -/
theorem view_never_fails_witness :
    (NdTensor.mk { dims := [2, 3], data := [0, 1, 2, 3, 4, 5] } [2, 3] : NdTensor Nat).view
        = some { shape := [2, 3], data := [0, 1, 2, 3, 4, 5] }
    ∧ (NdTensor.mk { dims := [2, 3], data := [0, 1, 2, 3, 4, 5] } [2, 3] : NdTensor Nat).view_mut
        = some { shape := [2, 3], data := [0, 1, 2, 3, 4, 5] } :=
  view_never_fails Nat _ (by decide)

/-- C5: the shape [2, 3] tensor with values 0..5 constructs into a rank-2
wrapper whose view is the row-major matrix [[0, 1, 2], [3, 4, 5]]: entry
(i, j) is i * 3 + j, and flat position i sits at (i / 3, i % 3). -/
theorem from_tensor_two_three_view :
    ∃ (a : NdTensor Nat) (v : ArrayView Nat),
      NdTensor.from_tensor (fixedDefault 2) { dims := [2, 3], data := [0, 1, 2, 3, 4, 5] }
          = Except.ok a
      ∧ a.view = some v
      ∧ v = { shape := [2, 3], data := [0, 1, 2, 3, 4, 5] }
      ∧ (∀ i : Fin 2, ∀ j : Fin 3, v.read [i.val, j.val] = i.val * 3 + j.val)
      ∧ (∀ i : Fin 6, v.read [i.val / 3, i.val % 3] = i.val) :=
  ⟨NdTensor.mk { dims := [2, 3], data := [0, 1, 2, 3, 4, 5] } [2, 3],
   ArrayView.mk [2, 3] [0, 1, 2, 3, 4, 5],
   by decide, by decide, by decide, by decide, by decide⟩

/-- C6: writing one element at a valid index through a mutable view and then
taking a read view observes exactly that write, every other valid index
reading as before. -/
theorem write_then_read (T : Type) [Inhabited T] (a : NdTensor T)
    (ix jx : List Nat) (x : T) (h : a.Inv)
    (hix : validIdx a.shape ix) (hjx : validIdx a.shape jx) (hne : jx ≠ ix) :
    ∃ v0 v : ArrayView T, a.view = some v0
      ∧ (a.write ix x).view = some v
      ∧ v.shape = a.shape
      ∧ v.data = a.inner.data.set (flatIndex a.shape ix) x
      ∧ v.read ix = x
      ∧ v.read jx = v0.read jx := by
  obtain ⟨hixl, hixb⟩ := hix
  obtain ⟨hjxl, hjxb⟩ := hjx
  have h' : a.inner.data.length = a.shape.prod := h
  have hfi : flatIndex a.shape ix < a.inner.data.length := by
    rw [h']
    exact flatIndex_lt_prod a.shape ix hixl hixb
  have hfj : flatIndex a.shape jx < a.inner.data.length := by
    rw [h']
    exact flatIndex_lt_prod a.shape jx hjxl hjxb
  have hfne : flatIndex a.shape ix ≠ flatIndex a.shape jx := by
    intro hc
    exact hne (flatIndex_inj a.shape jx ix hjxl hjxb hixl hixb hc.symm)
  have hwlen : (a.write ix x).inner.data.length = (a.write ix x).shape.prod := by
    simpa [NdTensor.write] using h'
  refine ⟨{ shape := a.shape, data := a.inner.data },
    { shape := a.shape, data := a.inner.data.set (flatIndex a.shape ix) x },
    view_some a h', view_some _ hwlen, rfl, rfl, ?_, ?_⟩
  · show (a.inner.data.set (flatIndex a.shape ix) x).getD (flatIndex a.shape ix) default = x
    rw [List.getD_eq_getElem _ _ (by rw [List.length_set]; exact hfi)]
    simp
  · show (a.inner.data.set (flatIndex a.shape ix) x).getD (flatIndex a.shape jx) default
      = a.inner.data.getD (flatIndex a.shape jx) default
    rw [List.getD_eq_getElem _ _ (by rw [List.length_set]; exact hfj),
      List.getD_eq_getElem _ _ hfj]
    exact List.getElem_set_ne hfne _

/-- Witness for C6: setting position (0, 2) to 42 on the [[0, 1, 2],
[3, 4, 5]] view yields [[0, 1, 42], [3, 4, 5]], position (1, 1)
unchanged. -/
theorem write_then_read_witness :
    ∃ v0 v : ArrayView Nat,
      (NdTensor.mk { dims := [2, 3], data := [0, 1, 2, 3, 4, 5] } [2, 3]).view = some v0
      ∧ ((NdTensor.mk { dims := [2, 3], data := [0, 1, 2, 3, 4, 5] } [2, 3]).write
          [0, 2] 42).view = some v
      ∧ v.shape = [2, 3]
      ∧ v.data = [0, 1, 42, 3, 4, 5]
      ∧ v.read [0, 2] = 42
      ∧ v.read [1, 1] = v0.read [1, 1] := by
  obtain ⟨v0, v, h1, h2, h3, h4, h5, h6⟩ :=
    write_then_read Nat (NdTensor.mk { dims := [2, 3], data := [0, 1, 2, 3, 4, 5] } [2, 3])
      [0, 2] [1, 1] 42 (by decide) (by decide) (by decide) (by decide)
  refine ⟨v0, v, h1, h2, h3, ?_, h5, h6⟩
  rw [h4]
  decide

/-- C7: zeros is total (by its type it returns a wrapper, never an error),
stores the given shape unchanged, and fills a buffer of length the product
of the shape with the element type's zero; in particular, zeros with shape
[2, 3] gives the all-zero 2 by 3 view. -/
theorem zeros_correct :
    (∀ (T : Type) [Zero T] (shape : List Nat),
      (NdTensor.zeros T shape).shape = shape
      ∧ (NdTensor.zeros T shape).inner.data = List.replicate shape.prod (0 : T)
      ∧ (NdTensor.zeros T shape).inner.data.length = shape.prod
      ∧ (NdTensor.zeros T shape).view
          = some { shape := shape, data := List.replicate shape.prod (0 : T) })
    ∧ (NdTensor.zeros Int [2, 3]).view
        = some { shape := [2, 3], data := [0, 0, 0, 0, 0, 0] } := by
  refine ⟨fun T _ shape => ⟨rfl, rfl, by simp [NdTensor.zeros, Tensor.new], ?_⟩, by decide⟩
  exact view_some _ (by simp [NdTensor.zeros, Tensor.new])

/-- C8: reclaiming the tensor immediately after a successful from_tensor,
with no intervening mutation, returns the input tensor unchanged, shape
metadata and contents included. -/
theorem into_inner_roundtrip (T : Type) (dflt : List Nat) (t : Tensor T)
    (a : NdTensor T) (h : NdTensor.from_tensor dflt t = Except.ok a) :
    a.into_inner = t := by
  obtain ⟨-, ha⟩ := from_tensor_ok_elim dflt t a h
  rw [ha]
  rfl

/-- Witness for C8 at the concrete shape [2, 3] tensor with values 0..5. -/
theorem into_inner_roundtrip_witness :
    (NdTensor.mk { dims := [2, 3], data := [0, 1, 2, 3, 4, 5] } [2, 3] : NdTensor Nat).into_inner
      = { dims := [2, 3], data := [0, 1, 2, 3, 4, 5] } :=
  into_inner_roundtrip Nat (fixedDefault 2) { dims := [2, 3], data := [0, 1, 2, 3, 4, 5] } _
    (by decide)

/-- C10: from_tensor compares the tensor's rank with the ndim of the target
dimension type's default value; for the dynamically ranked IxDyn, whose
default value has rank 0, only rank-0 tensors are accepted, and every
tensor of positive rank is rejected with ShapeError. -/
theorem from_tensor_dyn_default_rank_zero :
    (∀ (T : Type) (dflt : List Nat) (t : Tensor T),
      NdTensor.from_tensor dflt t = Except.error ShapeError.mk
        ↔ dflt.length ≠ t.dims.length)
    ∧ (∀ (T : Type) (t : Tensor T),
      NdTensor.from_tensor dynDefault t = Except.error ShapeError.mk
        ↔ t.dims.length ≠ 0)
    ∧ (∀ (T : Type) (t : Tensor T),
      NdTensor.from_tensor dynDefault t = Except.ok { inner := t, shape := [] }
        ↔ t.dims = [])
    ∧ NdTensor.from_tensor (T := Nat) dynDefault
        { dims := [2, 3], data := [0, 1, 2, 3, 4, 5] } = Except.error ShapeError.mk := by
  refine ⟨fun T dflt t => from_tensor_eq_error_iff dflt t, fun T t => ?_, fun T t => ?_,
    by decide⟩
  · rw [from_tensor_eq_error_iff]
    simp only [dynDefault, List.length_nil]
    omega
  · constructor
    · intro h
      have hlen := (from_tensor_ok_elim dynDefault t _ h).1
      exact List.eq_nil_of_length_eq_zero (by simpa [dynDefault] using hlen.symm)
    · intro h
      simpa [h] using from_tensor_ok_of_length dynDefault t (by simp [dynDefault, h])

end NdarrayTensorflow
